import Mathlib

/-!
Verification of the effect-processing core of the OpenAL Soft fork
(coronalabs/openal-soft): the compressor effect (Alc/effects/compressor.cpp)
and the ring-modulator effect (Alc/effects/modulator.cpp).

Machine floats are embedded as rationals where the arithmetic is rational
(envelope follower, gains, parameter storage) and as reals where the code
uses transcendental library functions (std::pow, std::sin).  32-bit signed
integers that never overflow in the modelled code paths are embedded as
naturals, with the bit mask written exactly as in the source.
-/

namespace OpenALSoft

/-! ## Shared numeric helpers (alu.h)

The repository's alu.h helpers used by both effect files.  Their bodies are
one-line conditionals; they are reproduced here over the embedding types.
-/

/-- alu.h minf: return ((a > b) ? b : a). -/
def minf (a b : ℚ) : ℚ := if a > b then b else a

/-- alu.h maxf: return ((a > b) ? a : b). -/
def maxf (a b : ℚ) : ℚ := if a > b then a else b

/-- alu.h clampf: return minf(max, maxf(min, val)). -/
def clampf (val lo hi : ℚ) : ℚ := minf hi (maxf lo val)

/-- alu.h mini: return ((a > b) ? b : a) on integers (nonnegative here). -/
def mini (a b : ℕ) : ℕ := if a > b then b else a

/-- alu.h GAIN_SILENCE_THRESHOLD (0.00001f); the constant lives outside the
given sources, its value is the fixed silence threshold the spec refers to. -/
def GAIN_SILENCE_THRESHOLD : ℚ := 1 / 100000

/-! ## Compressor (Alc/effects/compressor.cpp) -/

/-- compressor.cpp AMP_ENVELOPE_MIN (0.5f). -/
def AMP_ENVELOPE_MIN : ℚ := 1 / 2

/-- compressor.cpp AMP_ENVELOPE_MAX (2.0f). -/
def AMP_ENVELOPE_MAX : ℚ := 2

/-- compressor.cpp ATTACK_TIME (0.1f, 100ms to rise from min to max). -/
def ATTACK_TIME : ℚ := 1 / 10

/-- compressor.cpp RELEASE_TIME (0.2f, 200ms to drop from max to min). -/
def RELEASE_TIME : ℚ := 1 / 5

/-- The CompressorState fields.  The channel gain matrix mGain is an
(ambisonic channel, output channel)-indexed family of gains; buffers are
embedded as index functions. -/
structure CompressorState where
  mGain : ℕ → ℕ → ℚ
  mEnabled : Bool
  mAttackMult : ℚ
  mReleaseMult : ℚ
  mEnvFollower : ℚ

/-- CompressorState::deviceUpdate, over the reals (std::pow on floats):
attack and release per-sample multipliers from the device sample rate,
returning AL_TRUE.  Result is (mAttackMult, mReleaseMult, return value). -/
noncomputable def CompressorState.deviceUpdate (frequency : ℕ) : ℝ × ℝ × Bool :=
  let attackCount : ℝ := (frequency : ℝ) * (ATTACK_TIME : ℚ)
  let releaseCount : ℝ := (frequency : ℝ) * (RELEASE_TIME : ℚ)
  (((AMP_ENVELOPE_MAX : ℚ) / (AMP_ENVELOPE_MIN : ℚ) : ℝ) ^ (1 / attackCount),
   ((AMP_ENVELOPE_MIN : ℚ) / (AMP_ENVELOPE_MAX : ℚ) : ℝ) ^ (1 / releaseCount),
   true)

/-- One iteration of the envelope-follower branch in
CompressorState::process: attack toward a larger amplitude, release toward a
smaller one, otherwise hold. -/
def envUpdate (aMult rMult env amplitude : ℚ) : ℚ :=
  if amplitude > env then minf (env * aMult) amplitude
  else if amplitude < env then maxf (env * rMult) amplitude
  else env

/-- The working amplitude of sample i in CompressorState::process: the
clamped absolute value of the first input channel when enabled, the constant
1.0 when disabled. -/
def sampleAmp (enabled : Bool) (in0 : ℕ → ℚ) (i : ℕ) : ℚ :=
  if enabled then clampf |in0 i| AMP_ENVELOPE_MIN AMP_ENVELOPE_MAX else 1

/-- The envelope follower after consuming n samples starting at absolute
sample index b from envelope value env (the per-sample recursion both
branches of CompressorState::process perform). -/
def envRun (aMult rMult : ℚ) (enabled : Bool) (in0 : ℕ → ℚ) (env : ℚ) (b : ℕ) :
    ℕ → ℚ
  | 0 => env
  | n + 1 => envUpdate aMult rMult (envRun aMult rMult enabled in0 env b n)
      (sampleAmp enabled in0 (b + n))

/-- The gains[]-filling loop of one sub-block of CompressorState::process:
starting from envelope env at absolute sample index b, produce td per-sample
gains (each 1/env after that sample's envelope update) and the final
envelope. -/
def genGains (aMult rMult : ℚ) (enabled : Bool) (in0 : ℕ → ℚ) (env : ℚ)
    (b : ℕ) : ℕ → List ℚ × ℚ
  | 0 => ([], env)
  | td + 1 =>
    let e := envUpdate aMult rMult env (sampleAmp enabled in0 b)
    let rest := genGains aMult rMult enabled in0 e (b + 1) td
    ((1 / e) :: rest.1, rest.2)

/-- The output-accumulation loops of one sub-block of
CompressorState::process: for every input channel j and output channel k
whose gain passes the silence threshold, add
samplesIn[j][i] * gains[i - base] * mGain[j][k] into samplesOut[k][i] for
the sub-block's sample range. -/
def accumOut (mGain : ℕ → ℕ → ℚ) (samplesIn : ℕ → ℕ → ℚ) (gains : List ℚ)
    (numInput numOutput base : ℕ) (out : ℕ → ℕ → ℚ) : ℕ → ℕ → ℚ :=
  (List.range numInput).foldl (fun acc j =>
    (List.range numOutput).foldl (fun acc2 k =>
      if |mGain j k| > GAIN_SILENCE_THRESHOLD then
        fun k0 i0 =>
          if k0 = k ∧ base ≤ i0 ∧ i0 < base + gains.length then
            acc2 k0 i0 + samplesIn j i0 * gains.getD (i0 - base) 0 * mGain j k
          else acc2 k0 i0
      else acc2) acc) out

/-- The sub-block loop of CompressorState::process: while samples remain,
take td = mini(256, remaining) samples, generate their gains from the
envelope, accumulate into the output, and continue at base + td.  Returns
the final output buffer and final envelope. -/
def cprocAux (mGain : ℕ → ℕ → ℚ) (aMult rMult : ℚ) (enabled : Bool)
    (samplesIn : ℕ → ℕ → ℚ) (numInput numOutput : ℕ) :
    (base : ℕ) → (remaining : ℕ) → (env : ℚ) → (out : ℕ → ℕ → ℚ) →
      (ℕ → ℕ → ℚ) × ℚ
  | _, 0, env, out => (out, env)
  | base, r + 1, env, out =>
    let td := mini 256 (r + 1)
    let g := genGains aMult rMult enabled (samplesIn 0) env base td
    let out2 := accumOut mGain samplesIn g.1 numInput numOutput base out
    cprocAux mGain aMult rMult enabled samplesIn numInput numOutput
      (base + td) (r + 1 - td) g.2 out2
  termination_by _ r _ _ => r
  decreasing_by
    simp only [mini]
    split <;> omega

/-- The total contribution all input channels add to output channel k at
sample i of CompressorState::process, given that sample's gain g: the sum
over input channels j whose pan gain passes the silence threshold of
samplesIn[j][i] * g * mGain[j][k] (spec 4.4 step 4). -/
def outContribution (mGain : ℕ → ℕ → ℚ) (samplesIn : ℕ → ℕ → ℚ)
    (numInput : ℕ) (g : ℚ) (k i : ℕ) : ℚ :=
  ((List.range numInput).map (fun j =>
    if |mGain j k| > GAIN_SILENCE_THRESHOLD then samplesIn j i * g * mGain j k
    else 0)).sum

/-- CompressorState::process: run the sub-block loop from sample 0 with the
state's envelope; the returned state differs from the input state only in
mEnvFollower. -/
def CompressorState.process (s : CompressorState) (samplesToDo : ℕ)
    (samplesIn : ℕ → ℕ → ℚ) (numInput numOutput : ℕ)
    (samplesOut : ℕ → ℕ → ℚ) : (ℕ → ℕ → ℚ) × CompressorState :=
  let r := cprocAux s.mGain s.mAttackMult s.mReleaseMult s.mEnabled samplesIn
    numInput numOutput 0 samplesToDo s.mEnvFollower samplesOut
  (r.1, { s with mEnvFollower := r.2 })

/-! ## Modulator (Alc/effects/modulator.cpp) -/

/-- modulator.cpp MAX_UPDATE_SAMPLES. -/
def MAX_UPDATE_SAMPLES : ℕ := 128

/-- modulator.cpp WAVEFORM_FRACBITS. -/
def WAVEFORM_FRACBITS : ℕ := 24

/-- modulator.cpp WAVEFORM_FRACONE = 1 << WAVEFORM_FRACBITS. -/
def WAVEFORM_FRACONE : ℕ := 2 ^ WAVEFORM_FRACBITS

/-- modulator.cpp WAVEFORM_FRACMASK = WAVEFORM_FRACONE - 1. -/
def WAVEFORM_FRACMASK : ℕ := WAVEFORM_FRACONE - 1

/-- modulator.cpp Sin: std::sin(index * (Tau / WAVEFORM_FRACONE)), with
Tau = 2*pi; real-valued embedding of the float computation. -/
noncomputable def Sin (index : ℕ) : ℝ :=
  Real.sin ((index : ℝ) * (2 * Real.pi / (WAVEFORM_FRACONE : ℕ)))

/-- modulator.cpp Saw: index*(2.0f/WAVEFORM_FRACONE) - 1.0f. -/
noncomputable def Saw (index : ℕ) : ℝ :=
  (index : ℝ) * (2 / (WAVEFORM_FRACONE : ℕ)) - 1

/-- modulator.cpp Square: ((index >> (WAVEFORM_FRACBITS-2)) & 2) - 1. -/
noncomputable def Square (index : ℕ) : ℝ :=
  (((index >>> (WAVEFORM_FRACBITS - 2)) &&& 2 : ℕ) : ℝ) - 1

/-- modulator.cpp One: the constant carrier 1.0f. -/
noncomputable def One (_ : ℕ) : ℝ := 1

/-- modulator.cpp Modulate<func>: generate todo carrier samples, advancing
and masking the (local) phase index once per sample before sampling func. -/
def modulate (func : ℕ → ℝ) (index step : ℕ) : ℕ → List ℝ
  | 0 => []
  | todo + 1 =>
    let idx := (index + step) &&& WAVEFORM_FRACMASK
    func idx :: modulate func idx step todo

/-- The local phase index Modulate reaches after n generated samples. -/
def modulateIndexAfter (index step : ℕ) : ℕ → ℕ
  | 0 => index
  | n + 1 => (modulateIndexAfter index step n + step) &&& WAVEFORM_FRACMASK

/-- Modelled from the spec: the ring-modulator waveform selector codes
(AL_RING_MODULATOR_SINUSOID, AL_RING_MODULATOR_SAWTOOTH,
AL_RING_MODULATOR_SQUARE), declared in the EFX header which is not among
the given sources; an enumerated set of three waveform codes. -/
def AL_RING_MODULATOR_SINUSOID : ℤ := 0

/-- Modelled from the spec: see AL_RING_MODULATOR_SINUSOID. -/
def AL_RING_MODULATOR_SAWTOOTH : ℤ := 1

/-- Modelled from the spec: see AL_RING_MODULATOR_SINUSOID. -/
def AL_RING_MODULATOR_SQUARE : ℤ := 2

/-- The carrier-generator selection of ModulatorState::update: a zero
fixed-point step selects the constant One, otherwise the stored waveform
code selects Sin, Saw or (the fall-through default) Square. -/
noncomputable def selectGenerator (mStep : ℕ) (waveform : ℤ) : ℕ → ℝ :=
  if mStep = 0 then One
  else if waveform = AL_RING_MODULATOR_SINUSOID then Sin
  else if waveform = AL_RING_MODULATOR_SAWTOOTH then Saw
  else Square

/-- The per-sub-block member phase update of ModulatorState::process:
mIndex += (step*td) & WAVEFORM_FRACMASK; mIndex &= WAVEFORM_FRACMASK. -/
def chunkIndexAdvance (index step td : ℕ) : ℕ :=
  (index + ((step * td) &&& WAVEFORM_FRACMASK)) &&& WAVEFORM_FRACMASK

/-- The phase-accumulator evolution of the sub-block loop of
ModulatorState::process: sub-blocks of td = mini(MAX_UPDATE_SAMPLES,
remaining) samples, each advancing mIndex by the per-sub-block update.  The
audio path of the loop (filtering, modulation, mixing) never writes mIndex,
so this captures the accumulator exactly. -/
def mprocPhaseAux (step : ℕ) : (remaining : ℕ) → (index : ℕ) → ℕ
  | 0, index => index
  | r + 1, index =>
    let td := mini MAX_UPDATE_SAMPLES (r + 1)
    mprocPhaseAux step (r + 1 - td) (chunkIndexAdvance index step td)
  termination_by r _ => r
  decreasing_by
    simp only [mini, MAX_UPDATE_SAMPLES]
    split <;> omega

/-- Modelled from the spec: a biquad filter (filters/biquad.h, not among the
given sources) holds a coefficient set and a two-sample history; clear()
zeroes only the history. -/
structure BiquadFilter where
  b0 : ℚ
  b1 : ℚ
  b2 : ℚ
  a1 : ℚ
  a2 : ℚ
  z1 : ℚ
  z2 : ℚ

/-- Modelled from the spec: BiquadFilter::clear zeroes the history, leaving
the coefficients alone. -/
def BiquadFilter.clear (f : BiquadFilter) : BiquadFilter :=
  { f with z1 := 0, z2 := 0 }

/-- One entry of ModulatorState::mChans: filter plus current and target
mixing gains (output-channel-indexed). -/
structure ModChannel where
  Filter : BiquadFilter
  CurrentGains : ℕ → ℚ
  TargetGains : ℕ → ℚ

/-- The ModulatorState fields: selected generator, phase accumulator and
step, and the per-ambisonic-channel filter/gain records. -/
structure ModulatorState where
  mGetSamples : ℕ → ℝ
  mIndex : ℕ
  mStep : ℕ
  mChans : ℕ → ModChannel

/-- ModulatorState::deviceUpdate: for every channel record, clear the filter
history and zero CurrentGains; return AL_TRUE.  Nothing else is touched. -/
def ModulatorState.deviceUpdate (s : ModulatorState) : ModulatorState × Bool :=
  ({ s with
      mChans := fun c =>
        { Filter := (s.mChans c).Filter.clear
          CurrentGains := fun _ => 0
          TargetGains := (s.mChans c).TargetGains } },
   true)

/-! ## Typed parameter protocol (compressor.cpp / modulator.cpp) -/

/-- The two error conditions the parameter protocol signals via
alSetError. -/
inductive ALError where
  | InvalidValue : ALError
  | InvalidEnum : ALError
deriving DecidableEq

/-- Modelled from the spec: the compressor's parameter identifier
AL_COMPRESSOR_ONOFF (EFX header value 0x0001, not among the given
sources). -/
def AL_COMPRESSOR_ONOFF : ℤ := 1

/-- Modelled from the spec: the boolean on/off domain bounds
AL_COMPRESSOR_MIN_ONOFF = 0 and AL_COMPRESSOR_MAX_ONOFF = 1 (header values,
not among the given sources). -/
def AL_COMPRESSOR_MIN_ONOFF : ℤ := 0

/-- Modelled from the spec: see AL_COMPRESSOR_MIN_ONOFF. -/
def AL_COMPRESSOR_MAX_ONOFF : ℤ := 1

/-- The compressor slice of EffectProps. -/
structure CompressorProps where
  OnOff : ℤ
deriving DecidableEq

/-- Compressor_setParami: on AL_COMPRESSOR_ONOFF, reject values outside
[AL_COMPRESSOR_MIN_ONOFF, AL_COMPRESSOR_MAX_ONOFF] with AL_INVALID_VALUE
leaving props alone, else store; any other identifier signals
AL_INVALID_ENUM and leaves props alone.  Result is (stored props, signalled
error). -/
def Compressor_setParami (props : CompressorProps) (param : ℤ) (val : ℤ) :
    CompressorProps × Option ALError :=
  if param = AL_COMPRESSOR_ONOFF then
    if ¬(val ≥ AL_COMPRESSOR_MIN_ONOFF ∧ val ≤ AL_COMPRESSOR_MAX_ONOFF) then
      (props, some ALError.InvalidValue)
    else ({ props with OnOff := val }, none)
  else (props, some ALError.InvalidEnum)

/-- Compressor_getParami: on AL_COMPRESSOR_ONOFF write the stored value
into the output location; any other identifier signals AL_INVALID_ENUM and
leaves the output location (passed in as out) alone. -/
def Compressor_getParami (props : CompressorProps) (param : ℤ) (out : ℤ) :
    ℤ × Option ALError :=
  if param = AL_COMPRESSOR_ONOFF then (props.OnOff, none)
  else (out, some ALError.InvalidEnum)

/-- Modelled from the spec: the modulator's float parameter identifiers
AL_RING_MODULATOR_FREQUENCY (0x0001) and AL_RING_MODULATOR_HIGHPASS_CUTOFF
(0x0002), declared in the EFX header which is not among the given
sources. -/
def AL_RING_MODULATOR_FREQUENCY : ℤ := 1

/-- Modelled from the spec: see AL_RING_MODULATOR_FREQUENCY. -/
def AL_RING_MODULATOR_HIGHPASS_CUTOFF : ℤ := 2

/-- Modelled from the spec: the declared valid frequency range
[AL_RING_MODULATOR_MIN_FREQUENCY, AL_RING_MODULATOR_MAX_FREQUENCY]
(EFX header values 0.0 and 8000.0, not among the given sources). -/
def AL_RING_MODULATOR_MIN_FREQUENCY : ℚ := 0

/-- Modelled from the spec: see AL_RING_MODULATOR_MIN_FREQUENCY. -/
def AL_RING_MODULATOR_MAX_FREQUENCY : ℚ := 8000

/-- Modelled from the spec: the declared valid high-pass cutoff range
(EFX header values 0.0 and 24000.0, not among the given sources). -/
def AL_RING_MODULATOR_MIN_HIGHPASS_CUTOFF : ℚ := 0

/-- Modelled from the spec: see AL_RING_MODULATOR_MIN_HIGHPASS_CUTOFF. -/
def AL_RING_MODULATOR_MAX_HIGHPASS_CUTOFF : ℚ := 24000

/-- The modulator slice of EffectProps. -/
structure ModulatorProps where
  Frequency : ℚ
  HighPassCutoff : ℚ
  Waveform : ℤ
deriving DecidableEq

/-- Modulator_setParamf: frequency and high-pass cutoff are range-checked
and stored; out-of-range values signal AL_INVALID_VALUE leaving props
alone; any other identifier signals AL_INVALID_ENUM and leaves props
alone. -/
def Modulator_setParamf (props : ModulatorProps) (param : ℤ) (val : ℚ) :
    ModulatorProps × Option ALError :=
  if param = AL_RING_MODULATOR_FREQUENCY then
    if ¬(val ≥ AL_RING_MODULATOR_MIN_FREQUENCY ∧
         val ≤ AL_RING_MODULATOR_MAX_FREQUENCY) then
      (props, some ALError.InvalidValue)
    else ({ props with Frequency := val }, none)
  else if param = AL_RING_MODULATOR_HIGHPASS_CUTOFF then
    if ¬(val ≥ AL_RING_MODULATOR_MIN_HIGHPASS_CUTOFF ∧
         val ≤ AL_RING_MODULATOR_MAX_HIGHPASS_CUTOFF) then
      (props, some ALError.InvalidValue)
    else ({ props with HighPassCutoff := val }, none)
  else (props, some ALError.InvalidEnum)

/-- Modulator_getParamf: frequency and high-pass cutoff are copied to the
output location; any other identifier signals AL_INVALID_ENUM and leaves
the output location (passed in as out) alone. -/
def Modulator_getParamf (props : ModulatorProps) (param : ℤ) (out : ℚ) :
    ℚ × Option ALError :=
  if param = AL_RING_MODULATOR_FREQUENCY then (props.Frequency, none)
  else if param = AL_RING_MODULATOR_HIGHPASS_CUTOFF then
    (props.HighPassCutoff, none)
  else (out, some ALError.InvalidEnum)

/-! ## Helper lemmas -/

theorem minf_eq_min (a b : ℚ) : minf a b = min a b := by
  unfold minf
  rcases le_or_lt a b with h | h
  · rw [if_neg (not_lt.mpr h), min_eq_left h]
  · rw [if_pos h, min_eq_right h.le]

theorem maxf_eq_max (a b : ℚ) : maxf a b = max a b := by
  unfold maxf
  rcases le_or_lt a b with h | h
  · rw [if_neg (not_lt.mpr h), max_eq_right h]
  · rw [if_pos h, max_eq_left h.le]

theorem clampf_eq (val lo hi : ℚ) : clampf val lo hi = min hi (max lo val) := by
  rw [clampf, minf_eq_min, maxf_eq_max]

theorem mini_eq_min (a b : ℕ) : mini a b = min a b := by
  unfold mini
  rcases le_or_lt a b with h | h
  · rw [if_neg (not_lt.mpr h), min_eq_left h]
  · rw [if_pos h, min_eq_right h.le]

theorem modulate_one (index step : ℕ) :
    ∀ todo, modulate One index step todo = List.replicate todo 1 := by
  intro todo
  induction todo generalizing index with
  | zero => rfl
  | succ n ih => simp [modulate, One, List.replicate, ih]

theorem sampleAmp_mem (enabled : Bool) (in0 : ℕ → ℚ) (i : ℕ) :
    sampleAmp enabled in0 i ∈ Set.Icc AMP_ENVELOPE_MIN AMP_ENVELOPE_MAX := by
  rw [Set.mem_Icc]
  cases enabled with
  | false =>
    simp only [sampleAmp, Bool.false_eq_true, if_false, AMP_ENVELOPE_MIN,
      AMP_ENVELOPE_MAX]
    norm_num
  | true =>
    simp only [sampleAmp, if_true, clampf_eq, AMP_ENVELOPE_MIN,
      AMP_ENVELOPE_MAX]
    constructor
    · exact le_min (by norm_num) (le_max_left _ _)
    · exact min_le_left _ _

theorem envUpdate_mem (aMult rMult env amp : ℚ) (hA : 1 ≤ aMult)
    (hR : rMult ≤ 1)
    (hE : env ∈ Set.Icc AMP_ENVELOPE_MIN AMP_ENVELOPE_MAX)
    (hamp : amp ∈ Set.Icc AMP_ENVELOPE_MIN AMP_ENVELOPE_MAX) :
    envUpdate aMult rMult env amp ∈
      Set.Icc AMP_ENVELOPE_MIN AMP_ENVELOPE_MAX := by
  rw [Set.mem_Icc] at *
  obtain ⟨he1, he2⟩ := hE
  obtain ⟨ha1, ha2⟩ := hamp
  rw [AMP_ENVELOPE_MIN, AMP_ENVELOPE_MAX] at *
  rw [envUpdate, minf_eq_min, maxf_eq_max]
  split_ifs with h1 h2
  · exact ⟨le_min (by nlinarith) ha1, le_trans (min_le_right _ _) ha2⟩
  · exact ⟨le_trans ha1 (le_max_right _ _), max_le (by nlinarith) ha2⟩
  · exact ⟨he1, he2⟩

theorem envRun_mem (aMult rMult : ℚ) (en : Bool) (in0 : ℕ → ℚ)
    (hA : 1 ≤ aMult) (hR : rMult ≤ 1) :
    ∀ (n b : ℕ) (env : ℚ), env ∈ Set.Icc AMP_ENVELOPE_MIN AMP_ENVELOPE_MAX →
      envRun aMult rMult en in0 env b n ∈
        Set.Icc AMP_ENVELOPE_MIN AMP_ENVELOPE_MAX := by
  intro n
  induction n with
  | zero => intro b env h; exact h
  | succ m ih =>
    intro b env h
    exact envUpdate_mem _ _ _ _ hA hR (ih b env h) (sampleAmp_mem en in0 _)

theorem envRun_add (aMult rMult : ℚ) (en : Bool) (in0 : ℕ → ℚ) (env : ℚ)
    (b m : ℕ) :
    ∀ n, envRun aMult rMult en in0 (envRun aMult rMult en in0 env b m)
        (b + m) n = envRun aMult rMult en in0 env b (m + n) := by
  intro n
  induction n with
  | zero => rfl
  | succ k ih =>
    show envUpdate aMult rMult _ (sampleAmp en in0 (b + m + k)) = _
    rw [ih]
    show _ = envUpdate aMult rMult _ (sampleAmp en in0 (b + (m + k)))
    rw [Nat.add_assoc]
    rfl

theorem genGains_eq (aMult rMult : ℚ) (en : Bool) (in0 : ℕ → ℚ) :
    ∀ (td b : ℕ) (env : ℚ),
      genGains aMult rMult en in0 env b td =
        ((List.range td).map
            (fun i => 1 / envRun aMult rMult en in0 env b (i + 1)),
         envRun aMult rMult en in0 env b td) := by
  intro td
  induction td with
  | zero => intro b env; simp [genGains, envRun]
  | succ m ih =>
    intro b env
    have h0 : envUpdate aMult rMult env (sampleAmp en in0 b) =
        envRun aMult rMult en in0 env b 1 := by
      show _ = envUpdate aMult rMult (envRun aMult rMult en in0 env b 0)
        (sampleAmp en in0 (b + 0))
      rfl
    have h1 : ∀ k, envRun aMult rMult en in0
        (envUpdate aMult rMult env (sampleAmp en in0 b)) (b + 1) k =
        envRun aMult rMult en in0 env b (k + 1) := by
      intro k
      rw [h0, envRun_add, Nat.add_comm 1 k]
    rw [genGains, ih (b + 1)]
    rw [List.range_succ_eq_map]
    simp only [List.map_cons, List.map_map, Function.comp_def, h1,
      Nat.zero_add]
    rw [h0]

theorem foldl_pointwise_add {α : Type} (step : (ℕ → ℕ → ℚ) → α → (ℕ → ℕ → ℚ))
    (w : α → ℕ → ℕ → ℚ)
    (hstep : ∀ acc a k i, step acc a k i = acc k i + w a k i) :
    ∀ (l : List α) (acc : ℕ → ℕ → ℚ) (k i : ℕ),
      (l.foldl step acc) k i = acc k i + (l.map (fun a => w a k i)).sum := by
  intro l
  induction l with
  | nil => intro acc k i; simp
  | cons a t ih =>
    intro acc k i
    rw [List.foldl_cons, ih, hstep]
    simp [add_assoc]

theorem sum_indicator_range (n k0 : ℕ) (f : ℕ → ℚ) :
    ((List.range n).map (fun k => if k0 = k then f k else 0)).sum =
      if k0 < n then f k0 else 0 := by
  induction n with
  | zero => simp
  | succ m ih =>
    rw [List.range_succ, List.map_append, List.sum_append, ih]
    by_cases h : k0 = m
    · subst h
      simp [Nat.lt_succ_iff]
    · by_cases h2 : k0 < m
      · simp [h, h2, Nat.lt_succ_of_lt h2]
      · have h3 : ¬k0 < m + 1 := by omega
        simp [h, h2, h3]

theorem accumOut_eq (mGain samplesIn : ℕ → ℕ → ℚ) (gains : List ℚ)
    (nI nO base : ℕ) (out : ℕ → ℕ → ℚ) :
    accumOut mGain samplesIn gains nI nO base out = fun k i =>
      if k < nO ∧ base ≤ i ∧ i < base + gains.length then
        out k i + outContribution mGain samplesIn nI
          (gains.getD (i - base) 0) k i
      else out k i := by
  -- pointwise additive form of one k-iteration of the inner loop, for a
  -- fixed input channel j
  have hinstep : ∀ (j : ℕ) (acc2 : ℕ → ℕ → ℚ) (kk k0 i0 : ℕ),
      (if |mGain j kk| > GAIN_SILENCE_THRESHOLD then
        fun k1 i1 =>
          if k1 = kk ∧ base ≤ i1 ∧ i1 < base + gains.length then
            acc2 k1 i1 + samplesIn j i1 * gains.getD (i1 - base) 0 * mGain j kk
          else acc2 k1 i1
      else acc2) k0 i0 =
      acc2 k0 i0 +
        (if k0 = kk then
          (if base ≤ i0 ∧ i0 < base + gains.length ∧
              |mGain j kk| > GAIN_SILENCE_THRESHOLD then
            samplesIn j i0 * gains.getD (i0 - base) 0 * mGain j kk
          else 0)
        else 0) := by
    intro j acc2 kk k0 i0
    by_cases hT : |mGain j kk| > GAIN_SILENCE_THRESHOLD
    · rw [if_pos hT]
      by_cases hk : k0 = kk
      · by_cases hR : base ≤ i0 ∧ i0 < base + gains.length
        · rw [if_pos ⟨hk, hR.1, hR.2⟩, if_pos hk,
            if_pos ⟨hR.1, hR.2, hT⟩]
        · rw [if_neg (by tauto), if_pos hk, if_neg (by tauto), add_zero]
      · rw [if_neg (by tauto), if_neg hk, add_zero]
    · rw [if_neg hT]
      by_cases hk : k0 = kk
      · rw [if_pos hk, if_neg (by tauto), add_zero]
      · rw [if_neg hk, add_zero]
  -- the whole inner loop of one input channel, pointwise
  have hinner : ∀ (acc : ℕ → ℕ → ℚ) (j k i : ℕ),
      ((List.range nO).foldl (fun acc2 kk =>
        if |mGain j kk| > GAIN_SILENCE_THRESHOLD then
          fun k1 i1 =>
            if k1 = kk ∧ base ≤ i1 ∧ i1 < base + gains.length then
              acc2 k1 i1 +
                samplesIn j i1 * gains.getD (i1 - base) 0 * mGain j kk
            else acc2 k1 i1
        else acc2) acc) k i =
      acc k i +
        (if k < nO ∧ base ≤ i ∧ i < base + gains.length ∧
            |mGain j k| > GAIN_SILENCE_THRESHOLD then
          samplesIn j i * gains.getD (i - base) 0 * mGain j k
        else 0) := by
    intro acc j k i
    rw [foldl_pointwise_add _ _ (hinstep j) (List.range nO) acc k i,
      sum_indicator_range]
    congr 1
    by_cases h1 : k < nO
    · by_cases h2 : base ≤ i ∧ i < base + gains.length ∧
          |mGain j k| > GAIN_SILENCE_THRESHOLD
      · rw [if_pos h1, if_pos h2, if_pos ⟨h1, h2⟩]
      · rw [if_pos h1, if_neg h2, if_neg (by tauto)]
    · rw [if_neg h1, if_neg (by tauto)]
  -- the outer loop over input channels, pointwise
  have houter : ∀ (acc : ℕ → ℕ → ℚ) (k i : ℕ),
      accumOut mGain samplesIn gains nI nO base acc k i =
      acc k i +
        ((List.range nI).map (fun j =>
          if k < nO ∧ base ≤ i ∧ i < base + gains.length ∧
              |mGain j k| > GAIN_SILENCE_THRESHOLD then
            samplesIn j i * gains.getD (i - base) 0 * mGain j k
          else 0)).sum := by
    intro acc k i
    unfold accumOut
    exact foldl_pointwise_add _ _ hinner (List.range nI) acc k i
  funext k i
  rw [houter]
  by_cases hc : k < nO ∧ base ≤ i ∧ i < base + gains.length
  · rw [if_pos hc]
    congr 1
    rw [outContribution]
    apply congrArg List.sum
    apply List.map_congr_left
    intro j _
    by_cases hT : |mGain j k| > GAIN_SILENCE_THRESHOLD
    · rw [if_pos ⟨hc.1, hc.2.1, hc.2.2, hT⟩, if_pos hT]
    · rw [if_neg (by tauto), if_neg hT]
  · rw [if_neg hc]
    have hz : ∀ x ∈ (List.range nI).map (fun j =>
        if k < nO ∧ base ≤ i ∧ i < base + gains.length ∧
            |mGain j k| > GAIN_SILENCE_THRESHOLD then
          samplesIn j i * gains.getD (i - base) 0 * mGain j k
        else 0), x = 0 := by
      intro x hx
      rcases List.mem_map.mp hx with ⟨j, _, rfl⟩
      exact if_neg (by tauto)
    rw [List.sum_eq_zero hz, add_zero]

theorem getD_map_range (td m : ℕ) (f : ℕ → ℚ) (hm : m < td) :
    ((List.range td).map f).getD m 0 = f m := by
  rw [List.getD_eq_getElem _ _ (by simpa using hm)]
  simp

theorem cprocAux_eq (mGain : ℕ → ℕ → ℚ) (aMult rMult : ℚ) (en : Bool)
    (samplesIn : ℕ → ℕ → ℚ) (nI nO : ℕ) (env0 : ℚ) :
    ∀ (r base : ℕ) (out : ℕ → ℕ → ℚ),
      cprocAux mGain aMult rMult en samplesIn nI nO base r
          (envRun aMult rMult en (samplesIn 0) env0 0 base) out =
        (fun k i => if k < nO ∧ base ≤ i ∧ i < base + r then
            out k i + outContribution mGain samplesIn nI
              (1 / envRun aMult rMult en (samplesIn 0) env0 0 (i + 1)) k i
          else out k i,
         envRun aMult rMult en (samplesIn 0) env0 0 (base + r)) := by
  intro r
  induction r using Nat.strong_induction_on with
  | _ r ih =>
    match r with
    | 0 =>
      intro base out
      rw [cprocAux]
      have h1 : (fun k i => if k < nO ∧ base ≤ i ∧ i < base + 0 then
          out k i + outContribution mGain samplesIn nI
            (1 / envRun aMult rMult en (samplesIn 0) env0 0 (i + 1)) k i
        else out k i) = out := by
        funext k i
        rw [if_neg (by omega)]
      rw [h1, Nat.add_zero]
    | r + 1 =>
      intro base out
      rw [cprocAux]
      have htd : 1 ≤ mini 256 (r + 1) ∧ mini 256 (r + 1) ≤ r + 1 := by
        rw [mini_eq_min]; omega
      have hE : ∀ k, envRun aMult rMult en (samplesIn 0)
          (envRun aMult rMult en (samplesIn 0) env0 0 base) base k =
          envRun aMult rMult en (samplesIn 0) env0 0 (base + k) := by
        intro k
        have h := envRun_add aMult rMult en (samplesIn 0) env0 0 base k
        simpa using h
      rw [genGains_eq]
      simp only [hE]
      rw [ih (r + 1 - mini 256 (r + 1)) (by omega) (base + mini 256 (r + 1))]
      have hsum : base + mini 256 (r + 1) + (r + 1 - mini 256 (r + 1)) =
          base + (r + 1) := by omega
      rw [hsum]
      rw [Prod.mk.injEq]
      refine ⟨?_, rfl⟩
      funext k i
      simp only [accumOut_eq, List.length_map, List.length_range]
      by_cases h1 : k < nO
      · by_cases h2 : base ≤ i ∧ i < base + mini 256 (r + 1)
        · rw [if_neg (by omega), if_pos ⟨h1, h2.1, h2.2⟩,
            if_pos ⟨h1, h2.1, by omega⟩]
          have hg : ((List.range (mini 256 (r + 1))).map (fun i2 =>
              1 / envRun aMult rMult en (samplesIn 0) env0 0
                (base + (i2 + 1)))).getD (i - base) 0 =
              1 / envRun aMult rMult en (samplesIn 0) env0 0 (i + 1) := by
            rw [getD_map_range _ _ _ (by omega)]
            have : base + (i - base + 1) = i + 1 := by omega
            rw [this]
          rw [hg]
        · by_cases h3 : base + mini 256 (r + 1) ≤ i ∧ i < base + (r + 1)
          · rw [if_pos ⟨h1, h3.1, h3.2⟩, if_neg (by omega),
              if_pos ⟨h1, by omega, h3.2⟩]
          · rw [if_neg (by omega), if_neg (by omega), if_neg (by omega)]
      · rw [if_neg (by omega), if_neg (by omega), if_neg (by omega)]

theorem envRun_zero (aMult rMult : ℚ) (en : Bool) (in0 : ℕ → ℚ) (env : ℚ)
    (b : ℕ) : envRun aMult rMult en in0 env b 0 = env := rfl

theorem one_div_mem_Icc (x : ℚ)
    (hx : x ∈ Set.Icc AMP_ENVELOPE_MIN AMP_ENVELOPE_MAX) :
    1 / x ∈ Set.Icc AMP_ENVELOPE_MIN AMP_ENVELOPE_MAX := by
  rw [Set.mem_Icc, AMP_ENVELOPE_MIN, AMP_ENVELOPE_MAX] at *
  have hx0 : 0 < x := lt_of_lt_of_le (by norm_num) hx.1
  constructor
  · rw [le_div_iff₀ hx0]
    linarith [hx.2]
  · rw [div_le_iff₀ hx0]
    linarith [hx.1]

theorem land_fracmask_eq_mod (n : ℕ) :
    n &&& WAVEFORM_FRACMASK = n % WAVEFORM_FRACONE := by
  simp only [WAVEFORM_FRACMASK, WAVEFORM_FRACONE]
  exact Nat.and_pow_two_sub_one_eq_mod n WAVEFORM_FRACBITS

theorem fracone_pos : 0 < WAVEFORM_FRACONE := by
  simp [WAVEFORM_FRACONE]

theorem land_fracmask_lt (n : ℕ) : n &&& WAVEFORM_FRACMASK < WAVEFORM_FRACONE := by
  rw [land_fracmask_eq_mod]
  exact Nat.mod_lt _ fracone_pos

theorem modulateIndexAfter_eq (index step : ℕ) (h : index < WAVEFORM_FRACONE) :
    ∀ n, modulateIndexAfter index step n =
      (index + step * n) % WAVEFORM_FRACONE := by
  intro n
  induction n with
  | zero => simp [modulateIndexAfter, Nat.mod_eq_of_lt h]
  | succ m ih =>
    rw [modulateIndexAfter, ih, land_fracmask_eq_mod, Nat.mod_add_mod,
      Nat.mul_succ, ← Nat.add_assoc]

theorem chunkIndexAdvance_eq (index step td : ℕ) :
    chunkIndexAdvance index step td =
      (index + step * td) % WAVEFORM_FRACONE := by
  rw [chunkIndexAdvance, land_fracmask_eq_mod, land_fracmask_eq_mod,
    Nat.add_mod_mod]

theorem chunkIndexAdvance_lt (index step td : ℕ) :
    chunkIndexAdvance index step td < WAVEFORM_FRACONE := by
  rw [chunkIndexAdvance_eq]
  exact Nat.mod_lt _ fracone_pos

theorem mprocPhaseAux_eq (step : ℕ) :
    ∀ r index, index < WAVEFORM_FRACONE →
      mprocPhaseAux step r index =
        (index + step * r) % WAVEFORM_FRACONE := by
  intro r
  induction r using Nat.strong_induction_on with
  | _ r ih =>
    match r with
    | 0 =>
      intro index h
      simp [mprocPhaseAux, Nat.mod_eq_of_lt h]
    | r + 1 =>
      intro index h
      rw [mprocPhaseAux]
      have htd : mini MAX_UPDATE_SAMPLES (r + 1) ≤ r + 1 := by
        rw [mini_eq_min]; exact Nat.min_le_right _ _
      have htd1 : 1 ≤ mini MAX_UPDATE_SAMPLES (r + 1) := by
        rw [mini_eq_min]
        exact Nat.le_min.mpr ⟨by norm_num [MAX_UPDATE_SAMPLES], Nat.succ_le_succ (Nat.zero_le r)⟩
      rw [ih (r + 1 - mini MAX_UPDATE_SAMPLES (r + 1)) (by omega) _
        (chunkIndexAdvance_lt _ _ _), chunkIndexAdvance_eq, Nat.mod_add_mod,
        Nat.add_assoc, ← Nat.mul_add]
      have hsum : mini MAX_UPDATE_SAMPLES (r + 1) +
          (r + 1 - mini MAX_UPDATE_SAMPLES (r + 1)) = r + 1 := by omega
      rw [hsum]

theorem Sin_mem_Icc (index : ℕ) : Sin index ∈ Set.Icc (-1 : ℝ) 1 :=
  ⟨Real.neg_one_le_sin _, Real.sin_le_one _⟩

theorem Saw_mem_Icc (index : ℕ) (h : index < WAVEFORM_FRACONE) :
    Saw index ∈ Set.Icc (-1 : ℝ) 1 := by
  have hi : (index : ℝ) < 16777216 := by
    have h2 : index < 16777216 := by
      simpa [WAVEFORM_FRACONE, WAVEFORM_FRACBITS] using h
    exact_mod_cast h2
  have hi0 : (0 : ℝ) ≤ (index : ℝ) := Nat.cast_nonneg _
  have hF : ((WAVEFORM_FRACONE : ℕ) : ℝ) = 16777216 := by
    norm_num [WAVEFORM_FRACONE, WAVEFORM_FRACBITS]
  rw [Set.mem_Icc, Saw, hF]
  constructor <;> nlinarith

theorem Square_mem_Icc (index : ℕ) : Square index ∈ Set.Icc (-1 : ℝ) 1 := by
  have h2 : (index >>> (WAVEFORM_FRACBITS - 2)) &&& 2 ≤ 2 := Nat.and_le_right
  have h2r : (((index >>> (WAVEFORM_FRACBITS - 2)) &&& 2 : ℕ) : ℝ) ≤ 2 := by
    exact_mod_cast h2
  have h0r : (0 : ℝ) ≤ (((index >>> (WAVEFORM_FRACBITS - 2)) &&& 2 : ℕ) : ℝ) :=
    Nat.cast_nonneg _
  rw [Set.mem_Icc, Square]
  constructor <;> linarith

theorem modulate_mem_Icc (g : ℕ → ℝ)
    (hg : ∀ idx, idx < WAVEFORM_FRACONE → g idx ∈ Set.Icc (-1 : ℝ) 1) :
    ∀ todo index step x, x ∈ modulate g index step todo →
      x ∈ Set.Icc (-1 : ℝ) 1 := by
  intro todo
  induction todo with
  | zero =>
    intro index step x hx
    simp [modulate] at hx
  | succ n ih =>
    intro index step x hx
    simp only [modulate, List.mem_cons] at hx
    rcases hx with h | h
    · rw [h]
      exact hg _ (land_fracmask_lt _)
    · exact ih _ _ x h

/-! ## Claim theorems: parameter protocol -/

/-- C3: Compressor_setParami(AL_COMPRESSOR_ONOFF, val) with val in the
on/off domain stores val, and Compressor_getParami(AL_COMPRESSOR_ONOFF)
then returns it exactly with no error; val outside the domain signals
InvalidValue and leaves the stored props unchanged; an unrecognized
parameter identifier makes both set and get signal InvalidEnum, with the
set leaving props unchanged and the get leaving the output location
unmodified. -/
theorem compressor_onoff_param_protocol :
    ∀ (props : CompressorProps) (param val out : ℤ),
      ((AL_COMPRESSOR_MIN_ONOFF ≤ val ∧ val ≤ AL_COMPRESSOR_MAX_ONOFF) →
        Compressor_setParami props AL_COMPRESSOR_ONOFF val =
          ({ OnOff := val }, none) ∧
        Compressor_getParami
          (Compressor_setParami props AL_COMPRESSOR_ONOFF val).1
          AL_COMPRESSOR_ONOFF out = (val, none)) ∧
      (¬(AL_COMPRESSOR_MIN_ONOFF ≤ val ∧ val ≤ AL_COMPRESSOR_MAX_ONOFF) →
        Compressor_setParami props AL_COMPRESSOR_ONOFF val =
          (props, some ALError.InvalidValue)) ∧
      (param ≠ AL_COMPRESSOR_ONOFF →
        Compressor_setParami props param val =
          (props, some ALError.InvalidEnum) ∧
        Compressor_getParami props param out =
          (out, some ALError.InvalidEnum)) := by
  intro props param val out
  refine ⟨fun h => ?_, fun h => ?_, fun h => ?_⟩
  · constructor
    · simp [Compressor_setParami, h.1, h.2, ge_iff_le]
    · simp [Compressor_setParami, Compressor_getParami, h.1, h.2, ge_iff_le]
  · simp only [Compressor_setParami, if_pos rfl, ge_iff_le]
    rw [if_pos h]
    simp
  · simp [Compressor_setParami, Compressor_getParami, h]

theorem compressor_onoff_param_protocol_witness :
    (Compressor_setParami ⟨0⟩ 1 1 = (⟨1⟩, none) ∧
      Compressor_getParami (Compressor_setParami ⟨0⟩ 1 1).1 1 7 =
        (1, none)) ∧
    Compressor_setParami ⟨0⟩ 1 5 = (⟨0⟩, some ALError.InvalidValue) ∧
    (Compressor_setParami ⟨0⟩ 3 1 = (⟨0⟩, some ALError.InvalidEnum) ∧
      Compressor_getParami ⟨0⟩ 3 7 = (7, some ALError.InvalidEnum)) :=
  ⟨(compressor_onoff_param_protocol ⟨0⟩ 1 1 7).1 (by decide),
   (compressor_onoff_param_protocol ⟨0⟩ 1 5 7).2.1 (by decide),
   (compressor_onoff_param_protocol ⟨0⟩ 3 1 7).2.2 (by decide)⟩

/-- C4: Modulator_setParamf(AL_RING_MODULATOR_FREQUENCY, f) with f in the
declared range stores f with no error, and Modulator_getParamf then
returns f exactly (round-trip identity); f outside the range signals
InvalidValue and leaves the stored frequency (indeed all of props)
unchanged. -/
theorem modulator_frequency_roundtrip :
    ∀ (props : ModulatorProps) (f out : ℚ),
      ((AL_RING_MODULATOR_MIN_FREQUENCY ≤ f ∧
        f ≤ AL_RING_MODULATOR_MAX_FREQUENCY) →
        Modulator_setParamf props AL_RING_MODULATOR_FREQUENCY f =
          ({ props with Frequency := f }, none) ∧
        Modulator_getParamf
          (Modulator_setParamf props AL_RING_MODULATOR_FREQUENCY f).1
          AL_RING_MODULATOR_FREQUENCY out = (f, none)) ∧
      (¬(AL_RING_MODULATOR_MIN_FREQUENCY ≤ f ∧
         f ≤ AL_RING_MODULATOR_MAX_FREQUENCY) →
        Modulator_setParamf props AL_RING_MODULATOR_FREQUENCY f =
          (props, some ALError.InvalidValue)) := by
  intro props f out
  refine ⟨fun h => ?_, fun h => ?_⟩
  · constructor
    · simp [Modulator_setParamf, h.1, h.2, ge_iff_le]
    · simp [Modulator_setParamf, Modulator_getParamf, h.1, h.2, ge_iff_le]
  · simp only [Modulator_setParamf, if_pos rfl, ge_iff_le]
    rw [if_pos h]
    simp

theorem modulator_frequency_roundtrip_witness :
    (Modulator_setParamf ⟨0, 0, 0⟩ 1 440 = (⟨440, 0, 0⟩, none) ∧
      Modulator_getParamf (Modulator_setParamf ⟨0, 0, 0⟩ 1 440).1 1 7 =
        (440, none)) ∧
    Modulator_setParamf ⟨0, 0, 0⟩ 1 9000 =
      (⟨0, 0, 0⟩, some ALError.InvalidValue) :=
  ⟨(modulator_frequency_roundtrip ⟨0, 0, 0⟩ 440 7).1 (by norm_num
      [AL_RING_MODULATOR_MIN_FREQUENCY, AL_RING_MODULATOR_MAX_FREQUENCY]),
   (modulator_frequency_roundtrip ⟨0, 0, 0⟩ 9000 7).2 (by norm_num
      [AL_RING_MODULATOR_MIN_FREQUENCY, AL_RING_MODULATOR_MAX_FREQUENCY])⟩

/-! ## Claim theorems: modulator -/

/-- C6: whenever ModulatorState::update computes a zero fixed-point step,
the selected carrier generator is the constant One, so every carrier
sample produced by Modulate equals 1.0 for the whole block, regardless of
the stored waveform selector and of the phase. -/
theorem modulator_zero_step_bypass :
    ∀ (mStep : ℕ) (waveform : ℤ), mStep = 0 →
      selectGenerator mStep waveform = One ∧
      ∀ index step todo,
        modulate (selectGenerator mStep waveform) index step todo =
          List.replicate todo 1 := by
  intro mStep waveform h
  subst h
  refine ⟨by simp [selectGenerator], fun index step todo => ?_⟩
  simp [selectGenerator, modulate_one]

theorem modulator_zero_step_bypass_witness :
    selectGenerator 0 AL_RING_MODULATOR_SQUARE = One ∧
    modulate (selectGenerator 0 AL_RING_MODULATOR_SQUARE) 5 7 3 =
      List.replicate 3 1 :=
  ⟨(modulator_zero_step_bypass 0 AL_RING_MODULATOR_SQUARE rfl).1,
   (modulator_zero_step_bypass 0 AL_RING_MODULATOR_SQUARE rfl).2 5 7 3⟩

/-- C10: ModulatorState::deviceUpdate always returns success and, for every
channel, clears the biquad filter history and zeroes every CurrentGains
entry, while leaving the filter coefficients, mStep, mIndex, mGetSamples
and every channel's TargetGains unchanged (in particular it does not
recompute the sample-rate-dependent phase step). -/
theorem modulator_deviceUpdate_frame :
    ∀ s : ModulatorState,
      s.deviceUpdate.2 = true ∧
      s.deviceUpdate.1.mStep = s.mStep ∧
      s.deviceUpdate.1.mIndex = s.mIndex ∧
      s.deviceUpdate.1.mGetSamples = s.mGetSamples ∧
      ∀ c : ℕ,
        (s.deviceUpdate.1.mChans c).Filter.z1 = 0 ∧
        (s.deviceUpdate.1.mChans c).Filter.z2 = 0 ∧
        (s.deviceUpdate.1.mChans c).Filter.b0 = (s.mChans c).Filter.b0 ∧
        (s.deviceUpdate.1.mChans c).Filter.b1 = (s.mChans c).Filter.b1 ∧
        (s.deviceUpdate.1.mChans c).Filter.b2 = (s.mChans c).Filter.b2 ∧
        (s.deviceUpdate.1.mChans c).Filter.a1 = (s.mChans c).Filter.a1 ∧
        (s.deviceUpdate.1.mChans c).Filter.a2 = (s.mChans c).Filter.a2 ∧
        (∀ k : ℕ, (s.deviceUpdate.1.mChans c).CurrentGains k = 0) ∧
        (s.deviceUpdate.1.mChans c).TargetGains = (s.mChans c).TargetGains :=
  fun _ => ⟨rfl, rfl, rfl, rfl, fun _ =>
    ⟨rfl, rfl, rfl, rfl, rfl, rfl, rfl, fun _ => rfl, rfl⟩⟩

/-- C2: for every initial phase in [0, 2^24) and step in [0, 2^24), after
ModulatorState::process handles samplesToDo samples in sub-blocks of at
most 128, the phase accumulator equals
(initial + step * samplesToDo) mod 2^24, which is exactly the index the
per-sample generator Modulate reaches; the per-sub-block update is
equivalent to the per-sample advance. -/
theorem modulator_phase_accumulator (index step samplesToDo : ℕ)
    (hI : index < WAVEFORM_FRACONE) (_hS : step < WAVEFORM_FRACONE) :
    mprocPhaseAux step samplesToDo index =
      (index + step * samplesToDo) % WAVEFORM_FRACONE ∧
    modulateIndexAfter index step samplesToDo =
      (index + step * samplesToDo) % WAVEFORM_FRACONE ∧
    mprocPhaseAux step samplesToDo index =
      modulateIndexAfter index step samplesToDo := by
  have h1 := mprocPhaseAux_eq step samplesToDo index hI
  have h2 := modulateIndexAfter_eq index step hI samplesToDo
  exact ⟨h1, h2, h1.trans h2.symm⟩

theorem modulator_phase_accumulator_witness :
    5 < WAVEFORM_FRACONE ∧ 3 < WAVEFORM_FRACONE ∧
    (mprocPhaseAux 3 300 5 = (5 + 3 * 300) % WAVEFORM_FRACONE ∧
     modulateIndexAfter 5 3 300 = (5 + 3 * 300) % WAVEFORM_FRACONE ∧
     mprocPhaseAux 3 300 5 = modulateIndexAfter 5 3 300) :=
  ⟨by norm_num [WAVEFORM_FRACONE, WAVEFORM_FRACBITS],
   by norm_num [WAVEFORM_FRACONE, WAVEFORM_FRACBITS],
   modulator_phase_accumulator 5 3 300
     (by norm_num [WAVEFORM_FRACONE, WAVEFORM_FRACBITS])
     (by norm_num [WAVEFORM_FRACONE, WAVEFORM_FRACBITS])⟩

/-- C5: for every phase index in [0, 2^24), each of Sin, Saw and Square
returns a value in [-1, 1]; hence every carrier sample produced by
Modulate with any of those generators lies in [-1, 1]. -/
theorem modulator_carrier_bounded :
    ∀ index : ℕ,
      (index < WAVEFORM_FRACONE →
        Sin index ∈ Set.Icc (-1 : ℝ) 1 ∧ Saw index ∈ Set.Icc (-1 : ℝ) 1 ∧
        Square index ∈ Set.Icc (-1 : ℝ) 1) ∧
      (∀ g : ℕ → ℝ, g = Sin ∨ g = Saw ∨ g = Square →
        ∀ start step todo x, x ∈ modulate g start step todo →
          x ∈ Set.Icc (-1 : ℝ) 1) := by
  intro index
  constructor
  · intro h
    exact ⟨Sin_mem_Icc index, Saw_mem_Icc index h, Square_mem_Icc index⟩
  · rintro g (rfl | rfl | rfl) start step todo x hx
    · exact modulate_mem_Icc Sin (fun i _ => Sin_mem_Icc i) todo start step x hx
    · exact modulate_mem_Icc Saw (fun i hi => Saw_mem_Icc i hi) todo start step x hx
    · exact modulate_mem_Icc Square (fun i _ => Square_mem_Icc i) todo start step x hx

theorem modulator_carrier_bounded_witness :
    (Sin 0 ∈ Set.Icc (-1 : ℝ) 1 ∧ Saw 0 ∈ Set.Icc (-1 : ℝ) 1 ∧
      Square 0 ∈ Set.Icc (-1 : ℝ) 1) ∧ Saw 3 ∈ Set.Icc (-1 : ℝ) 1 := by
  refine ⟨(modulator_carrier_bounded 0).1
    (by norm_num [WAVEFORM_FRACONE, WAVEFORM_FRACBITS]), ?_⟩
  have hidx : (1 + 2) &&& WAVEFORM_FRACMASK = 3 := by decide
  have hm : modulate Saw 1 2 1 = [Saw 3] := by
    simp only [modulate, hidx]
  exact (modulator_carrier_bounded 0).2 Saw (Or.inr (Or.inl rfl)) 1 2 1
    (Saw 3) (hm ▸ List.mem_singleton_self _)

/-- C8: for every device sample rate f, CompressorState::deviceUpdate sets
the attack multiplier to (2.0/0.5)^(1/(f*0.1)) and the release multiplier
to (0.5/2.0)^(1/(f*0.2)) and returns success; at 48000 Hz both are within
1e-4 of 4^(1/4800) and 0.25^(1/9600) respectively (exactly equal in the
real-number semantics). -/
theorem compressor_deviceUpdate_mults :
    (∀ f : ℕ, CompressorState.deviceUpdate f =
      (((2 : ℝ) / (1 / 2)) ^ ((1 : ℝ) / ((f : ℝ) * (1 / 10))),
       (((1 : ℝ) / 2) / 2) ^ ((1 : ℝ) / ((f : ℝ) * (1 / 5))), true)) ∧
    |(CompressorState.deviceUpdate 48000).1 - (4 : ℝ) ^ ((1 : ℝ) / 4800)| ≤
      1 / 10000 ∧
    |(CompressorState.deviceUpdate 48000).2.1 -
      ((1 : ℝ) / 4) ^ ((1 : ℝ) / 9600)| ≤ 1 / 10000 := by
  have hdef : ∀ f : ℕ, CompressorState.deviceUpdate f =
      (((2 : ℝ) / (1 / 2)) ^ ((1 : ℝ) / ((f : ℝ) * (1 / 10))),
       (((1 : ℝ) / 2) / 2) ^ ((1 : ℝ) / ((f : ℝ) * (1 / 5))), true) := by
    intro f
    simp only [CompressorState.deviceUpdate, AMP_ENVELOPE_MAX,
      AMP_ENVELOPE_MIN, ATTACK_TIME, RELEASE_TIME]
    norm_num
  refine ⟨hdef, ?_, ?_⟩
  · rw [hdef 48000]
    have h1 : (((2 : ℝ) / (1 / 2)) ^ ((1 : ℝ) / (((48000 : ℕ) : ℝ) * (1 / 10))),
        (((1 : ℝ) / 2) / 2) ^ ((1 : ℝ) / (((48000 : ℕ) : ℝ) * (1 / 5))),
        true).1 = (4 : ℝ) ^ ((1 : ℝ) / 4800) := by
      norm_num
    rw [h1, sub_self, abs_zero]
    norm_num
  · rw [hdef 48000]
    have h2 : (((2 : ℝ) / (1 / 2)) ^ ((1 : ℝ) / (((48000 : ℕ) : ℝ) * (1 / 10))),
        (((1 : ℝ) / 2) / 2) ^ ((1 : ℝ) / (((48000 : ℕ) : ℝ) * (1 / 5))),
        true).2.1 = ((1 : ℝ) / 4) ^ ((1 : ℝ) / 9600) := by
      norm_num
    rw [h2, sub_self, abs_zero]
    norm_num

/-- C9: CompressorState::process only accumulates into the output: for
every output channel k < numOutput and sample i < samplesToDo the final
output value is its prior value plus the sum over input channels whose pan
gain passes the silence threshold of input * perSampleGain * panGain
(perSampleGain being the reciprocal of the envelope after that sample);
output entries at other indices are untouched, and the returned state
differs from the input state only in mEnvFollower. -/
theorem compressor_process_frame :
    ∀ (s : CompressorState) (samplesToDo : ℕ) (samplesIn : ℕ → ℕ → ℚ)
      (numInput numOutput : ℕ) (samplesOut : ℕ → ℕ → ℚ),
      s.process samplesToDo samplesIn numInput numOutput samplesOut =
        (fun k i => if k < numOutput ∧ i < samplesToDo then
            samplesOut k i + outContribution s.mGain samplesIn numInput
              (1 / envRun s.mAttackMult s.mReleaseMult s.mEnabled
                (samplesIn 0) s.mEnvFollower 0 (i + 1)) k i
          else samplesOut k i,
         { s with mEnvFollower := (envRun s.mAttackMult s.mReleaseMult
             s.mEnabled (samplesIn 0) s.mEnvFollower 0 samplesToDo) }) := by
  intro s n sIn nI nO out
  have h := cprocAux_eq s.mGain s.mAttackMult s.mReleaseMult s.mEnabled sIn
    nI nO s.mEnvFollower n 0 out
  rw [envRun_zero] at h
  show ((cprocAux s.mGain s.mAttackMult s.mReleaseMult s.mEnabled sIn nI nO
      0 n s.mEnvFollower out).1,
    { s with mEnvFollower := (cprocAux s.mGain s.mAttackMult s.mReleaseMult
        s.mEnabled sIn nI nO 0 n s.mEnvFollower out).2 }) = _
  rw [h]
  dsimp only
  rw [Prod.mk.injEq]
  constructor
  · funext k i
    by_cases hc : k < nO ∧ i < n
    · rw [if_pos ⟨hc.1, Nat.zero_le i, by omega⟩, if_pos hc]
    · rw [if_neg (by omega), if_neg hc]
  · rw [Nat.zero_add]

/-- C1: if the compressor envelope follower lies in [0.5, 2.0] before a
call to CompressorState::process, then for every input signal and block
length at least 1 (and the attack/release multipliers as deviceUpdate
computes them: attack at least 1, release at most 1) it lies in
[0.5, 2.0] after the call and after every per-sample update inside the
call, in both the enabled and the disabled branch. -/
theorem compressor_envelope_invariant :
    ∀ (s : CompressorState) (samplesToDo : ℕ) (samplesIn : ℕ → ℕ → ℚ)
      (numInput numOutput : ℕ) (samplesOut : ℕ → ℕ → ℚ),
      1 ≤ s.mAttackMult → s.mReleaseMult ≤ 1 → 1 ≤ samplesToDo →
      s.mEnvFollower ∈ Set.Icc AMP_ENVELOPE_MIN AMP_ENVELOPE_MAX →
      ((s.process samplesToDo samplesIn numInput numOutput
          samplesOut).2.mEnvFollower ∈
        Set.Icc AMP_ENVELOPE_MIN AMP_ENVELOPE_MAX) ∧
      ∀ i ≤ samplesToDo,
        envRun s.mAttackMult s.mReleaseMult s.mEnabled (samplesIn 0)
          s.mEnvFollower 0 i ∈ Set.Icc AMP_ENVELOPE_MIN AMP_ENVELOPE_MAX := by
  intro s n sIn nI nO out hA hR _hn hE
  have hfin : (s.process n sIn nI nO out).2.mEnvFollower =
      envRun s.mAttackMult s.mReleaseMult s.mEnabled (sIn 0)
        s.mEnvFollower 0 n := by
    have h := cprocAux_eq s.mGain s.mAttackMult s.mReleaseMult s.mEnabled
      sIn nI nO s.mEnvFollower n 0 out
    rw [envRun_zero] at h
    show ({ s with mEnvFollower := (cprocAux s.mGain s.mAttackMult
        s.mReleaseMult s.mEnabled sIn nI nO 0 n s.mEnvFollower
        out).2 }).mEnvFollower = _
    rw [h]
    dsimp only
    rw [Nat.zero_add]
  rw [hfin]
  exact ⟨envRun_mem _ _ _ _ hA hR n 0 _ hE,
    fun i _ => envRun_mem _ _ _ _ hA hR i 0 _ hE⟩

theorem compressor_envelope_invariant_witness :
    ((CompressorState.process ⟨fun _ _ => 0, true, 2, 1/2, 1⟩ 1
        (fun _ _ => 0) 1 1 (fun _ _ => 0)).2.mEnvFollower ∈
      Set.Icc AMP_ENVELOPE_MIN AMP_ENVELOPE_MAX) ∧
    envRun 2 (1/2) true (fun _ => 0) 1 0 1 ∈
      Set.Icc AMP_ENVELOPE_MIN AMP_ENVELOPE_MAX := by
  have h := compressor_envelope_invariant ⟨fun _ _ => 0, true, 2, 1/2, 1⟩ 1
    (fun _ _ => 0) 1 1 (fun _ _ => 0) (by norm_num) (by norm_num) le_rfl
    (by norm_num [Set.mem_Icc, AMP_ENVELOPE_MIN, AMP_ENVELOPE_MAX])
  exact ⟨h.1, h.2 1 le_rfl⟩

/-- C7: in every iteration of CompressorState::process, the per-sample
gain equals exactly 1 divided by the envelope value after that sample's
envelope update; consequently, with the envelope staying in [0.5, 2.0],
every per-sample gain lies in [0.5, 2.0]. -/
theorem compressor_gain_reciprocal :
    ∀ (aMult rMult : ℚ) (en : Bool) (in0 : ℕ → ℚ) (env : ℚ) (b td : ℕ),
      (∀ i, i < td → (genGains aMult rMult en in0 env b td).1.getD i 0 =
        1 / envRun aMult rMult en in0 env b (i + 1)) ∧
      (1 ≤ aMult → rMult ≤ 1 →
        env ∈ Set.Icc AMP_ENVELOPE_MIN AMP_ENVELOPE_MAX →
        ∀ g ∈ (genGains aMult rMult en in0 env b td).1,
          g ∈ Set.Icc AMP_ENVELOPE_MIN AMP_ENVELOPE_MAX) := by
  intro aMult rMult en in0 env b td
  constructor
  · intro i hi
    rw [genGains_eq]
    exact getD_map_range _ _ _ hi
  · intro hA hR hE g hg
    rw [genGains_eq] at hg
    rcases List.mem_map.mp hg with ⟨i, _, rfl⟩
    exact one_div_mem_Icc _ (envRun_mem _ _ _ _ hA hR _ _ _ hE)

theorem compressor_gain_reciprocal_witness :
    ((genGains 2 (1/2) true (fun _ => 0) 1 0 1).1.getD 0 0 =
      1 / envRun 2 (1/2) true (fun _ => 0) 1 0 1) ∧
    (2 : ℚ) ∈ Set.Icc AMP_ENVELOPE_MIN AMP_ENVELOPE_MAX := by
  have h := compressor_gain_reciprocal 2 (1/2) true (fun _ => 0) 1 0 1
  refine ⟨h.1 0 (by norm_num), ?_⟩
  have hmem : (2 : ℚ) ∈ (genGains 2 (1/2) true (fun _ => 0) 1 0 1).1 := by
    norm_num [genGains, envUpdate, sampleAmp, clampf, minf, maxf,
      AMP_ENVELOPE_MIN, AMP_ENVELOPE_MAX]
  exact h.2 (by norm_num) (by norm_num)
    (by norm_num [Set.mem_Icc, AMP_ENVELOPE_MIN, AMP_ENVELOPE_MAX]) 2 hmem

end OpenALSoft
